import Mathlib

/-!
Verification of the node-bootstrap subsystem of a TiKV node (files
`src/bin/tikv-server.rs` and `src/util/time.rs`), as a shallow embedding.

Machine integers are modelled as `Nat`/`Int`, with an explicit `% 2 ^ 64`
where u64 wrap-around matters.  The IEEE-754 operations that the source
performs on `f64`/`f32` constants are modelled exactly: every float value
appearing in the pipeline is a dyadic rational `num / 2 ^ shift`, and the
rounding of a product to 53 (resp. 24) significand bits is performed by
`roundMantissaP` below (round to nearest, ties to even), acting on the
integer numerator.  The hexadecimal float constants used:

* `0.25f64`  = `1 / 2 ^ 2` (exact),
* `0.15f64`  = `5404319552844595 / 2 ^ 55`,
* `0.02f64`  = `5764607523034235 / 2 ^ 58`,
* `0.8f32`   = `13421773 / 2 ^ 24`.

Fallible code (`process::exit`, `panic!`, `assert!`) is modelled with
`Except Fatal`; `Option` models Rust functions that can panic where the
claim only needs the panic/no-panic distinction.
-/

/-- Exit/panic outcomes of the startup code: `Fatal.exit code msg` models
`process::exit(code)` after logging `msg`; `Fatal.panicked msg` models a
Rust `panic!`/failed `assert!`. -/
inductive Fatal where
  | exit (code : Nat) (msg : String)
  | panicked (msg : String)
deriving DecidableEq

/-- Models `exit_with_err` from `tikv-server.rs`: logs the message and
exits with code 1. -/
def exit_with_err (msg : String) : Fatal := Fatal.exit 1 msg

/-- Constant `KB` from `tikv-server.rs`. -/
def KB : Nat := 1024

/-- Constant `MB` from `tikv-server.rs`. -/
def MB : Nat := 1024 * KB

/-- Constant `GB` from `tikv-server.rs`. -/
def GB : Nat := 1024 * MB

/-- Constant `RAFTCF_MIN_MEM` from `tikv-server.rs`. -/
def RAFTCF_MIN_MEM : Nat := 256 * MB

/-- Constant `RAFTCF_MAX_MEM` from `tikv-server.rs`. -/
def RAFTCF_MAX_MEM : Nat := 2 * GB

/-- Constant `LOCKCF_MIN_MEM` from `tikv-server.rs`. -/
def LOCKCF_MIN_MEM : Nat := 256 * MB

/-- Constant `LOCKCF_MAX_MEM` from `tikv-server.rs`. -/
def LOCKCF_MAX_MEM : Nat := GB

/-- Bitwise AND on natural numbers, computed structurally on `fuel` binary
digits (least significant first).  `natAndAux 64 a b` is `a & b` for 64-bit
values; the fuel makes the definition reduce by `decide`/`rfl` in the
kernel. -/
def natAndAux : Nat → Nat → Nat → Nat
  | 0, _, _ => 0
  | fuel + 1, a, b =>
      (if a % 2 = 1 ∧ b % 2 = 1 then 1 else 0) + 2 * natAndAux fuel (a / 2) (b / 2)

/-- Models `align_to_mb` from `tikv-server.rs`:
`n & 0xFFFFFFFFFFF00000` on u64 (the mask is `2^64 - 2^20`, i.e. it clears
the low 20 bits). -/
def align_to_mb (n : Nat) : Nat := natAndAux 64 n 0xFFFFFFFFFFF00000

/-- Models `adjust_block_cache_size` from `tikv-server.rs`: clamp
`cache_size` into `[min_limit, max_limit]`. -/
def adjust_block_cache_size (cache_size min_limit max_limit : Nat) : Nat :=
  if cache_size < min_limit then min_limit
  else if max_limit < cache_size then max_limit
  else cache_size

/-- Binary logarithm computed structurally with explicit fuel, so that it
reduces in the kernel.  `log2fuel 128 n` is `⌊log₂ n⌋` for every `n < 2^128`
(all numbers appearing in this development fit). -/
def log2fuel : Nat → Nat → Nat
  | 0, _ => 0
  | fuel + 1, n => if n < 2 then 0 else log2fuel fuel (n / 2) + 1

/-- Fixed-fuel binary logarithm used by the float-rounding model. -/
def natLog2 (n : Nat) : Nat := log2fuel 128 n

/-- Round a nonnegative integer significand to `prec` significant bits,
round-to-nearest, ties to even.  This is exactly what IEEE-754 binary
formats do to the (integer-scaled) exact result of an arithmetic
operation: `prec = 53` models `f64`, `prec = 24` models `f32`.  Values
that already fit in `prec` bits are unchanged. -/
def roundMantissaP (prec N : Nat) : Nat :=
  if N < 2 ^ prec then N
  else if 2 ^ (natLog2 N - (prec - 1)) < 2 * (N % 2 ^ (natLog2 N - (prec - 1))) ∨
      (2 * (N % 2 ^ (natLog2 N - (prec - 1))) = 2 ^ (natLog2 N - (prec - 1)) ∧
        N / 2 ^ (natLog2 N - (prec - 1)) % 2 = 1) then
    (N / 2 ^ (natLog2 N - (prec - 1)) + 1) * 2 ^ (natLog2 N - (prec - 1))
  else
    N / 2 ^ (natLog2 N - (prec - 1)) * 2 ^ (natLog2 N - (prec - 1))

/-- Models the Rust expression `(total_mem as f64 * RATIO) as u64` where
the f64 ratio constant is the dyadic rational `num / 2 ^ shift`:
first `total_mem as f64` rounds the u64 to 53 significant bits, then the
multiplication rounds the exact dyadic product to 53 significant bits,
then `as u64` truncates toward zero. -/
def f64_mul_ratio_trunc (m num shift : Nat) : Nat :=
  roundMantissaP 53 (roundMantissaP 53 m * num) / 2 ^ shift

/-- Block-cache size computed in `get_rocksdb_default_cf_option`:
`align_to_mb((total_mem as f64 * DEFAULT_BLOCK_CACHE_RATIO[0]) as u64)`
with ratio `0.25 = 1 / 2 ^ 2`. -/
def default_cf_block_cache_size (total_mem : Nat) : Nat :=
  align_to_mb (f64_mul_ratio_trunc total_mem 1 2)

/-- Block-cache size computed in `get_rocksdb_write_cf_option`:
ratio `DEFAULT_BLOCK_CACHE_RATIO[1] = 0.15f64 = 5404319552844595 / 2 ^ 55`. -/
def write_cf_block_cache_size (total_mem : Nat) : Nat :=
  align_to_mb (f64_mul_ratio_trunc total_mem 5404319552844595 55)

/-- The `cache_size` local of `get_rocksdb_raftlog_cf_option` (the value
before clamping): ratio
`DEFAULT_BLOCK_CACHE_RATIO[2] = 0.02f64 = 5764607523034235 / 2 ^ 58`. -/
def raftlog_cf_cache_size_pre (total_mem : Nat) : Nat :=
  align_to_mb (f64_mul_ratio_trunc total_mem 5764607523034235 58)

/-- The `block_cache_size` of `get_rocksdb_raftlog_cf_option`:
the pre-clamp value clamped to `[RAFTCF_MIN_MEM, RAFTCF_MAX_MEM]`. -/
def raftlog_cf_block_cache_size (total_mem : Nat) : Nat :=
  adjust_block_cache_size (raftlog_cf_cache_size_pre total_mem) RAFTCF_MIN_MEM RAFTCF_MAX_MEM

/-- The `cache_size` local of `get_rocksdb_lock_cf_option` (the value
before clamping): ratio `DEFAULT_BLOCK_CACHE_RATIO[3] = 0.02f64`. -/
def lock_cf_cache_size_pre (total_mem : Nat) : Nat :=
  align_to_mb (f64_mul_ratio_trunc total_mem 5764607523034235 58)

/-- The `block_cache_size` of `get_rocksdb_lock_cf_option`:
the pre-clamp value clamped to `[LOCKCF_MIN_MEM, LOCKCF_MAX_MEM]`. -/
def lock_cf_block_cache_size (total_mem : Nat) : Nat :=
  adjust_block_cache_size (lock_cf_cache_size_pre total_mem) LOCKCF_MIN_MEM LOCKCF_MAX_MEM

/-- Models `adjust_end_points_by_cpu_num` from `tikv-server.rs`:
`if total_cpu_num >= 8 { (total_cpu_num as f32 * 0.8) as usize } else { 4 }`.
`total_cpu_num as f32` rounds to 24 significant bits, the product with
`0.8f32 = 13421773 / 2 ^ 24` is rounded to 24 significant bits, and
`as usize` truncates (divides by `2 ^ 24` and floors). -/
def adjust_end_points_by_cpu_num (total_cpu_num : Nat) : Nat :=
  if 8 ≤ total_cpu_num then
    roundMantissaP 24 (roundMantissaP 24 total_cpu_num * 13421773) / 2 ^ 24
  else 4

/-! ### Arithmetic facts about the numeric helpers -/

theorem log2fuel_spec : ∀ fuel n, 0 < n → n < 2 ^ fuel →
    2 ^ log2fuel fuel n ≤ n ∧ n < 2 ^ (log2fuel fuel n + 1) := by
  intro fuel
  induction fuel with
  | zero => intro n h1 h2; omega
  | succ f ih =>
    intro n h1 h2
    unfold log2fuel
    by_cases hn : n < 2
    · simp only [if_pos hn]
      constructor
      · simpa using h1
      · simpa using hn
    · simp only [if_neg hn]
      have h1' : 0 < n / 2 := by omega
      have h2' : n / 2 < 2 ^ f := by
        have : (2 : Nat) ^ (f + 1) = 2 * 2 ^ f := by ring
        omega
      obtain ⟨ha, hb⟩ := ih (n / 2) h1' h2'
      constructor
      · have : 2 ^ (log2fuel f (n / 2) + 1) = 2 * 2 ^ log2fuel f (n / 2) := by ring
        omega
      · have : 2 ^ (log2fuel f (n / 2) + 1 + 1) = 2 * 2 ^ (log2fuel f (n / 2) + 1) := by ring
        omega

theorem natLog2_spec (n : Nat) (h1 : 0 < n) (h2 : n < 2 ^ 128) :
    2 ^ natLog2 n ≤ n ∧ n < 2 ^ (natLog2 n + 1) :=
  log2fuel_spec 128 n h1 h2

/-- Unpacking of `roundMantissaP` for values that genuinely round
(`2^prec ≤ N`): the result is the round-down or round-up multiple of
`2^p`, is at least the round-down multiple, and exceeds `N` by at most
half an ulp (`2 * result ≤ 2 * N + 2^p`). -/
theorem roundMantissaP_cases (prec N : Nat) (hprec : 1 ≤ prec)
    (hN : 2 ^ prec ≤ N) (hN2 : N < 2 ^ 128) :
    ∃ p, 1 ≤ p ∧ p = natLog2 N - (prec - 1) ∧
      2 ^ (p - 1) * 2 ^ prec ≤ N ∧ N < 2 ^ p * 2 ^ prec ∧
      (roundMantissaP prec N = N / 2 ^ p * 2 ^ p ∨
        (roundMantissaP prec N = (N / 2 ^ p + 1) * 2 ^ p ∧ 2 ^ p ≤ 2 * (N % 2 ^ p))) ∧
      N / 2 ^ p * 2 ^ p ≤ roundMantissaP prec N ∧
      2 * roundMantissaP prec N ≤ 2 * N + 2 ^ p := by
  have hpos : 0 < N := lt_of_lt_of_le (Nat.pos_pow_of_pos prec (by omega)) hN
  obtain ⟨hb1, hb2⟩ := natLog2_spec N hpos hN2
  set b := natLog2 N with hbdef
  have hbge : prec ≤ b := by
    by_contra hlt
    have hba : b + 1 ≤ prec := by omega
    have : (2 : Nat) ^ (b + 1) ≤ 2 ^ prec := Nat.pow_le_pow_right (by omega) hba
    omega
  set p := b - (prec - 1) with hpdef
  have hp1 : 1 ≤ p := by omega
  have hsplit1 : (p - 1) + prec = b := by omega
  have hsplit2 : p + prec = b + 1 := by omega
  have hlow : 2 ^ (p - 1) * 2 ^ prec ≤ N := by
    rw [← pow_add, hsplit1]; exact hb1
  have hhigh : N < 2 ^ p * 2 ^ prec := by
    rw [← pow_add, hsplit2]; exact hb2
  have hdm : N / 2 ^ p * 2 ^ p + N % 2 ^ p = N := Nat.div_add_mod' N (2 ^ p)
  have hrlt : N % 2 ^ p < 2 ^ p := Nat.mod_lt _ (Nat.pos_pow_of_pos p (by omega))
  have hq2 : (N / 2 ^ p + 1) * 2 ^ p = N / 2 ^ p * 2 ^ p + 2 ^ p := by ring
  have hcase : roundMantissaP prec N = N / 2 ^ p * 2 ^ p ∨
      (roundMantissaP prec N = (N / 2 ^ p + 1) * 2 ^ p ∧ 2 ^ p ≤ 2 * (N % 2 ^ p)) := by
    unfold roundMantissaP
    rw [if_neg (not_lt.mpr hN)]
    simp only [← hbdef, ← hpdef]
    split
    · rename_i hcond
      refine Or.inr ⟨rfl, ?_⟩
      rcases hcond with h | ⟨h, _⟩ <;> linarith
    · exact Or.inl rfl
  have lin1 : ∀ X R M P : Nat, X + R = M → R < P → 2 * X ≤ 2 * M + P := by
    intro X R M P h1 h2; omega
  have lin2 : ∀ X R M P : Nat, X + R = M → R < P → P ≤ 2 * R → 2 * (X + P) ≤ 2 * M + P := by
    intro X R M P h1 h2 h3; omega
  refine ⟨p, hp1, rfl, hlow, hhigh, hcase, ?_, ?_⟩
  · rcases hcase with h | ⟨h, _⟩
    · rw [h]
    · rw [h, hq2]
      exact Nat.le_add_right _ _
  · rcases hcase with h | ⟨h, hr⟩
    · rw [h]
      exact lin1 _ _ _ _ hdm hrlt
    · rw [h, hq2]
      exact lin2 _ _ _ _ hdm hrlt hr

/-- Upper bound on the rounding result:
`2^prec * roundMantissaP prec N ≤ (2^prec + 1) * N` (a relative error of
at most `2^-prec`). -/
theorem roundMantissaP_mul_le (prec N : Nat) (hprec : 1 ≤ prec) (hN2 : N < 2 ^ 128) :
    2 ^ prec * roundMantissaP prec N ≤ (2 ^ prec + 1) * N := by
  by_cases hsmall : N < 2 ^ prec
  · unfold roundMantissaP
    rw [if_pos hsmall]
    nlinarith [Nat.zero_le N]
  · obtain ⟨p, hp1, _, hlow, _, _, _, hhalf⟩ :=
      roundMantissaP_cases prec N hprec (by omega) hN2
    have hplow : 2 ^ prec * 2 ^ p ≤ 2 * N := by
      have hpp : p - 1 + 1 = p := by omega
      have hps : (2 : Nat) ^ (p - 1) * 2 = 2 ^ p := by
        rw [← pow_succ, hpp]
      calc 2 ^ prec * 2 ^ p = 2 * (2 ^ (p - 1) * 2 ^ prec) := by rw [← hps]; ring
        _ ≤ 2 * N := mul_le_mul_left' hlow _
    have key : 2 * (2 ^ prec * roundMantissaP prec N) ≤ 2 * ((2 ^ prec + 1) * N) := by
      calc 2 * (2 ^ prec * roundMantissaP prec N)
          = 2 ^ prec * (2 * roundMantissaP prec N) := by ring
        _ ≤ 2 ^ prec * (2 * N + 2 ^ p) := mul_le_mul_left' hhalf _
        _ = 2 ^ prec * (2 * N) + 2 ^ prec * 2 ^ p := by ring
        _ ≤ 2 ^ prec * (2 * N) + 2 * N := Nat.add_le_add_left hplow _
        _ = 2 * ((2 ^ prec + 1) * N) := by ring
    exact Nat.le_of_mul_le_mul_left key (by norm_num)

/-- Rounding cannot escape a power-of-two bound: if `N < 2 ^ f` then
`roundMantissaP prec N ≤ 2 ^ f` (for `prec ≤ f`). -/
theorem roundMantissaP_le_two_pow (prec N f : Nat) (hprec : 1 ≤ prec)
    (hN2 : N < 2 ^ 128) (hf : N < 2 ^ f) (hfp : prec ≤ f) :
    roundMantissaP prec N ≤ 2 ^ f := by
  by_cases hsmall : N < 2 ^ prec
  · unfold roundMantissaP
    rw [if_pos hsmall]
    exact le_of_lt hf
  · obtain ⟨p, hp1, _, hlow, hhigh, hcase, _, _⟩ :=
      roundMantissaP_cases prec N hprec (by omega) hN2
    have hexp : p - 1 + prec < f := by
      by_contra hge
      have hcontra : (2 : Nat) ^ f ≤ 2 ^ (p - 1 + prec) :=
        Nat.pow_le_pow_right (by omega) (by omega)
      rw [pow_add] at hcontra
      linarith
    have hpf : p ≤ f := by omega
    have hqlt : N / 2 ^ p < 2 ^ (f - p) := by
      rw [Nat.div_lt_iff_lt_mul (Nat.pos_pow_of_pos p (by omega)), ← pow_add]
      have : f - p + p = f := by omega
      rw [this]
      exact hf
    have hup : (N / 2 ^ p + 1) * 2 ^ p ≤ 2 ^ f := by
      have h1 : N / 2 ^ p + 1 ≤ 2 ^ (f - p) := hqlt
      calc (N / 2 ^ p + 1) * 2 ^ p ≤ 2 ^ (f - p) * 2 ^ p := Nat.mul_le_mul_right _ h1
        _ = 2 ^ f := by
            rw [← pow_add]
            congr 1
            omega
    rcases hcase with h | ⟨h, _⟩ <;> rw [h]
    · have hle := Nat.div_mul_le_self N (2 ^ p)
      linarith
    · exact hup

theorem natAndAux_succ (f a b : Nat) : natAndAux (f + 1) a b =
    (if a % 2 = 1 ∧ b % 2 = 1 then 1 else 0) + 2 * natAndAux f (a / 2) (b / 2) := rfl

theorem natAndAux_mask_ones : ∀ f a, natAndAux f a (2 ^ f - 1) = a % 2 ^ f := by
  intro f
  induction f with
  | zero =>
    intro a
    simp [natAndAux, Nat.mod_one]
  | succ g ih =>
    intro a
    have hpow : (2 : Nat) ^ (g + 1) = 2 * 2 ^ g := by ring
    have hgpos : (1 : Nat) ≤ 2 ^ g := Nat.one_le_two_pow
    have hmask2 : (2 ^ (g + 1) - 1) % 2 = 1 := by omega
    have hmaskd : (2 ^ (g + 1) - 1) / 2 = 2 ^ g - 1 := by omega
    have hmod : a % 2 ^ (g + 1) = a % 2 + 2 * (a / 2 % 2 ^ g) := by
      rw [hpow, Nat.mod_mul]
    rw [natAndAux_succ, hmask2, hmaskd, ih (a / 2), hmod]
    rcases Nat.mod_two_eq_zero_or_one a with h | h <;> simp [h]

theorem natAndAux_shift : ∀ j f a c, natAndAux (j + f) a (2 ^ j * c) =
    2 ^ j * natAndAux f (a / 2 ^ j) c := by
  intro j
  induction j with
  | zero =>
    intro f a c
    simp
  | succ i ih =>
    intro f a c
    have harith : i + 1 + f = (i + f) + 1 := by omega
    have hpow : (2 : Nat) ^ (i + 1) * c = 2 * (2 ^ i * c) := by ring
    have heven : (2 ^ (i + 1) * c) % 2 = 0 := by
      rw [hpow]
      omega
    have hdiv : 2 ^ (i + 1) * c / 2 = 2 ^ i * c := by
      rw [hpow]
      omega
    have hdd : a / 2 / 2 ^ i = a / 2 ^ (i + 1) := by
      rw [Nat.div_div_eq_div_mul]
      congr 1
      ring
    have hcond : ¬(a % 2 = 1 ∧ (2 ^ (i + 1) * c) % 2 = 1) := by
      rw [heven]
      simp
    rw [harith, natAndAux_succ, if_neg hcond, hdiv, ih f (a / 2) c, hdd]
    ring

/-- Closed form of `align_to_mb`: it keeps bits 20 to 63 of its argument. -/
theorem align_to_mb_eq_mod (n : Nat) :
    align_to_mb n = 2 ^ 20 * (n / 2 ^ 20 % 2 ^ 44) := by
  have hmask : (0xFFFFFFFFFFF00000 : Nat) = 2 ^ 20 * (2 ^ 44 - 1) := by norm_num
  have h64 : (64 : Nat) = 20 + 44 := by norm_num
  rw [align_to_mb, hmask, h64, natAndAux_shift 20 44 n (2 ^ 44 - 1),
    natAndAux_mask_ones 44 (n / 2 ^ 20)]

/-- Closed form on u64 inputs: `align_to_mb` rounds down to a multiple of
1 MiB. -/
theorem align_to_mb_eq_of_lt (n : Nat) (h : n < 2 ^ 64) :
    align_to_mb n = 2 ^ 20 * (n / 2 ^ 20) := by
  rw [align_to_mb_eq_mod]
  congr 1
  apply Nat.mod_eq_of_lt
  rw [Nat.div_lt_iff_lt_mul (by norm_num)]
  calc n < 2 ^ 64 := h
    _ = 2 ^ 44 * 2 ^ 20 := by norm_num

theorem align_to_mb_le (n : Nat) : align_to_mb n ≤ n := by
  rw [align_to_mb_eq_mod]
  calc 2 ^ 20 * (n / 2 ^ 20 % 2 ^ 44) ≤ 2 ^ 20 * (n / 2 ^ 20) :=
        mul_le_mul_left' (Nat.mod_le _ _) _
    _ = n / 2 ^ 20 * 2 ^ 20 := by ring
    _ ≤ n := Nat.div_mul_le_self n _

theorem align_to_mb_dvd (n : Nat) : 2 ^ 20 ∣ align_to_mb n := by
  rw [align_to_mb_eq_mod]
  exact Dvd.intro _ rfl

theorem adjust_block_cache_size_le_add (c lo hi : Nat) :
    adjust_block_cache_size c lo hi ≤ lo + c := by
  unfold adjust_block_cache_size
  split
  · omega
  · split <;> omega

theorem adjust_block_cache_size_mem (c lo hi : Nat) (h : lo ≤ hi) :
    lo ≤ adjust_block_cache_size c lo hi ∧ adjust_block_cache_size c lo hi ≤ hi := by
  unfold adjust_block_cache_size
  split
  · omega
  · split <;> omega

theorem adjust_block_cache_size_id (c lo hi : Nat) (h1 : lo ≤ c) (h2 : c ≤ hi) :
    adjust_block_cache_size c lo hi = c := by
  unfold adjust_block_cache_size
  split
  · omega
  · split <;> omega

theorem adjust_block_cache_size_dvd (c lo hi d : Nat)
    (hc : d ∣ c) (hlo : d ∣ lo) (hhi : d ∣ hi) :
    d ∣ adjust_block_cache_size c lo hi := by
  unfold adjust_block_cache_size
  split
  · exact hlo
  · split
    · exact hhi
    · exact hc

/-! ### Claim C1: the cache-sum invariant -/

theorem roundMantissaP53_le_two_pow_64 (m : Nat) (hm : m < 2 ^ 64) :
    roundMantissaP 53 m ≤ 2 ^ 64 :=
  roundMantissaP_le_two_pow 53 m 64 (by norm_num) (lt_trans hm (by norm_num)) hm (by norm_num)

/-- Upper bound for the whole `(total_mem as f64 * ratio) as u64` pipeline:
with both roundings bounded by a relative `2^-53` error,
`2^106 * 2^shift * result ≤ (2^53+1)^2 * num * m`. -/
theorem f64_mul_ratio_trunc_le (m num shift : Nat) (hm : m < 2 ^ 64)
    (hnum : num ≤ 2 ^ 53) :
    2 ^ 106 * 2 ^ shift * f64_mul_ratio_trunc m num shift ≤
      (2 ^ 53 + 1) * ((2 ^ 53 + 1) * (num * m)) := by
  have h1 : 2 ^ 53 * roundMantissaP 53 m ≤ (2 ^ 53 + 1) * m :=
    roundMantissaP_mul_le 53 m (by norm_num) (lt_trans hm (by norm_num))
  have hMle : roundMantissaP 53 m ≤ 2 ^ 64 := roundMantissaP53_le_two_pow_64 m hm
  have hprod : roundMantissaP 53 m * num < 2 ^ 128 := by
    calc roundMantissaP 53 m * num ≤ 2 ^ 64 * 2 ^ 53 := Nat.mul_le_mul hMle hnum
      _ < 2 ^ 128 := by norm_num
  have h2 : 2 ^ 53 * roundMantissaP 53 (roundMantissaP 53 m * num) ≤
      (2 ^ 53 + 1) * (roundMantissaP 53 m * num) :=
    roundMantissaP_mul_le 53 _ (by norm_num) hprod
  have h3 : f64_mul_ratio_trunc m num shift * 2 ^ shift ≤
      roundMantissaP 53 (roundMantissaP 53 m * num) :=
    Nat.div_mul_le_self _ _
  calc 2 ^ 106 * 2 ^ shift * f64_mul_ratio_trunc m num shift
      = 2 ^ 53 * (2 ^ 53 * (f64_mul_ratio_trunc m num shift * 2 ^ shift)) := by ring
    _ ≤ 2 ^ 53 * (2 ^ 53 * roundMantissaP 53 (roundMantissaP 53 m * num)) :=
        mul_le_mul_left' (mul_le_mul_left' h3 _) _
    _ ≤ 2 ^ 53 * ((2 ^ 53 + 1) * (roundMantissaP 53 m * num)) := mul_le_mul_left' h2 _
    _ = (2 ^ 53 + 1) * (num * (2 ^ 53 * roundMantissaP 53 m)) := by ring
    _ ≤ (2 ^ 53 + 1) * (num * ((2 ^ 53 + 1) * m)) :=
        mul_le_mul_left' (mul_le_mul_left' h1 _) _
    _ = (2 ^ 53 + 1) * ((2 ^ 53 + 1) * (num * m)) := by ring

theorem RAFTCF_MIN_MEM_eq : RAFTCF_MIN_MEM = 2 ^ 28 := by
  norm_num [RAFTCF_MIN_MEM, MB, KB]

theorem RAFTCF_MAX_MEM_eq : RAFTCF_MAX_MEM = 2 ^ 31 := by
  norm_num [RAFTCF_MAX_MEM, GB, MB, KB]

theorem LOCKCF_MIN_MEM_eq : LOCKCF_MIN_MEM = 2 ^ 28 := by
  norm_num [LOCKCF_MIN_MEM, MB, KB]

theorem LOCKCF_MAX_MEM_eq : LOCKCF_MAX_MEM = 2 ^ 30 := by
  norm_num [LOCKCF_MAX_MEM, GB, MB, KB]

/-- Claim C1 (amended): for every u64 total host memory of at least 1 GiB,
the sum of the four per-CF block-cache sizes computed at startup (default
and write caches as total_mem times their fixed f64 ratios aligned down to
1 MiB, raft and lock caches additionally clamped to their declared ranges)
is at most total_mem.  The original claim, quantified over every
total_mem, is refuted by `block_cache_sum_counterexample` below. -/
theorem block_cache_sum_le (m : Nat) (h30 : 2 ^ 30 ≤ m) (h64 : m < 2 ^ 64) :
    default_cf_block_cache_size m + write_cf_block_cache_size m +
      raftlog_cf_block_cache_size m + lock_cf_block_cache_size m ≤ m := by
  have hd : default_cf_block_cache_size m ≤ f64_mul_ratio_trunc m 1 2 :=
    align_to_mb_le _
  have hw : write_cf_block_cache_size m ≤ f64_mul_ratio_trunc m 5404319552844595 55 :=
    align_to_mb_le _
  have hr : raftlog_cf_block_cache_size m ≤
      2 ^ 28 + f64_mul_ratio_trunc m 5764607523034235 58 := by
    have h1 : raftlog_cf_block_cache_size m ≤
        RAFTCF_MIN_MEM + raftlog_cf_cache_size_pre m :=
      adjust_block_cache_size_le_add _ _ _
    have h2 : raftlog_cf_cache_size_pre m ≤ f64_mul_ratio_trunc m 5764607523034235 58 :=
      align_to_mb_le _
    have h3 := RAFTCF_MIN_MEM_eq
    omega
  have hl : lock_cf_block_cache_size m ≤
      2 ^ 28 + f64_mul_ratio_trunc m 5764607523034235 58 := by
    have h1 : lock_cf_block_cache_size m ≤
        LOCKCF_MIN_MEM + lock_cf_cache_size_pre m :=
      adjust_block_cache_size_le_add _ _ _
    have h2 : lock_cf_cache_size_pre m ≤ f64_mul_ratio_trunc m 5764607523034235 58 :=
      align_to_mb_le _
    have h3 := LOCKCF_MIN_MEM_eq
    omega
  have b0 := f64_mul_ratio_trunc_le m 1 2 h64 (by norm_num)
  have b1 := f64_mul_ratio_trunc_le m 5404319552844595 55 h64 (by norm_num)
  have b2 := f64_mul_ratio_trunc_le m 5764607523034235 58 h64 (by norm_num)
  have s0 : 2 ^ 164 * f64_mul_ratio_trunc m 1 2 ≤
      2 ^ 56 * ((2 ^ 53 + 1) * ((2 ^ 53 + 1) * (1 * m))) := by
    calc 2 ^ 164 * f64_mul_ratio_trunc m 1 2
        = 2 ^ 56 * (2 ^ 106 * 2 ^ 2 * f64_mul_ratio_trunc m 1 2) := by ring
      _ ≤ 2 ^ 56 * ((2 ^ 53 + 1) * ((2 ^ 53 + 1) * (1 * m))) := mul_le_mul_left' b0 _
  have s1 : 2 ^ 164 * f64_mul_ratio_trunc m 5404319552844595 55 ≤
      2 ^ 3 * ((2 ^ 53 + 1) * ((2 ^ 53 + 1) * (5404319552844595 * m))) := by
    calc 2 ^ 164 * f64_mul_ratio_trunc m 5404319552844595 55
        = 2 ^ 3 * (2 ^ 106 * 2 ^ 55 * f64_mul_ratio_trunc m 5404319552844595 55) := by ring
      _ ≤ 2 ^ 3 * ((2 ^ 53 + 1) * ((2 ^ 53 + 1) * (5404319552844595 * m))) :=
          mul_le_mul_left' b1 _
  have s2 : 2 ^ 164 * f64_mul_ratio_trunc m 5764607523034235 58 ≤
      (2 ^ 53 + 1) * ((2 ^ 53 + 1) * (5764607523034235 * m)) := by
    calc 2 ^ 164 * f64_mul_ratio_trunc m 5764607523034235 58
        = 2 ^ 106 * 2 ^ 58 * f64_mul_ratio_trunc m 5764607523034235 58 := by ring
      _ ≤ (2 ^ 53 + 1) * ((2 ^ 53 + 1) * (5764607523034235 * m)) := b2
  have hfin : 2 ^ 56 * ((2 ^ 53 + 1) * ((2 ^ 53 + 1) * (1 * m))) +
      2 ^ 3 * ((2 ^ 53 + 1) * ((2 ^ 53 + 1) * (5404319552844595 * m))) +
      (2 ^ 53 + 1) * ((2 ^ 53 + 1) * (5764607523034235 * m)) +
      (2 ^ 53 + 1) * ((2 ^ 53 + 1) * (5764607523034235 * m)) + 2 ^ 193 ≤
      2 ^ 164 * m := by
    have hcollect : 2 ^ 56 * ((2 ^ 53 + 1) * ((2 ^ 53 + 1) * (1 * m))) +
        2 ^ 3 * ((2 ^ 53 + 1) * ((2 ^ 53 + 1) * (5404319552844595 * m))) +
        (2 ^ 53 + 1) * ((2 ^ 53 + 1) * (5764607523034235 * m)) +
        (2 ^ 53 + 1) * ((2 ^ 53 + 1) * (5764607523034235 * m)) =
        (2 ^ 53 + 1) * ((2 ^ 53 + 1) * 126821365506753166) * m := by ring
    have hK : (2 ^ 53 + 1) * ((2 ^ 53 + 1) * 126821365506753166) + 2 ^ 163 ≤ 2 ^ 164 := by
      norm_num
    calc 2 ^ 56 * ((2 ^ 53 + 1) * ((2 ^ 53 + 1) * (1 * m))) +
        2 ^ 3 * ((2 ^ 53 + 1) * ((2 ^ 53 + 1) * (5404319552844595 * m))) +
        (2 ^ 53 + 1) * ((2 ^ 53 + 1) * (5764607523034235 * m)) +
        (2 ^ 53 + 1) * ((2 ^ 53 + 1) * (5764607523034235 * m)) + 2 ^ 193
        = (2 ^ 53 + 1) * ((2 ^ 53 + 1) * 126821365506753166) * m + 2 ^ 163 * 2 ^ 30 := by
          rw [hcollect]; norm_num
      _ ≤ (2 ^ 53 + 1) * ((2 ^ 53 + 1) * 126821365506753166) * m + 2 ^ 163 * m :=
          Nat.add_le_add_left (mul_le_mul_left' h30 _) _
      _ = ((2 ^ 53 + 1) * ((2 ^ 53 + 1) * 126821365506753166) + 2 ^ 163) * m := by ring
      _ ≤ 2 ^ 164 * m := Nat.mul_le_mul_right _ hK
  have big : 2 ^ 164 * (default_cf_block_cache_size m + write_cf_block_cache_size m +
      raftlog_cf_block_cache_size m + lock_cf_block_cache_size m) ≤ 2 ^ 164 * m := by
    calc 2 ^ 164 * (default_cf_block_cache_size m + write_cf_block_cache_size m +
        raftlog_cf_block_cache_size m + lock_cf_block_cache_size m)
        ≤ 2 ^ 164 * (f64_mul_ratio_trunc m 1 2 + f64_mul_ratio_trunc m 5404319552844595 55 +
            (2 ^ 28 + f64_mul_ratio_trunc m 5764607523034235 58) +
            (2 ^ 28 + f64_mul_ratio_trunc m 5764607523034235 58)) :=
          mul_le_mul_left' (by omega) _
      _ = 2 ^ 164 * f64_mul_ratio_trunc m 1 2 +
          2 ^ 164 * f64_mul_ratio_trunc m 5404319552844595 55 +
          2 ^ 164 * f64_mul_ratio_trunc m 5764607523034235 58 +
          2 ^ 164 * f64_mul_ratio_trunc m 5764607523034235 58 + 2 ^ 193 := by ring
      _ ≤ 2 ^ 56 * ((2 ^ 53 + 1) * ((2 ^ 53 + 1) * (1 * m))) +
          2 ^ 3 * ((2 ^ 53 + 1) * ((2 ^ 53 + 1) * (5404319552844595 * m))) +
          (2 ^ 53 + 1) * ((2 ^ 53 + 1) * (5764607523034235 * m)) +
          (2 ^ 53 + 1) * ((2 ^ 53 + 1) * (5764607523034235 * m)) + 2 ^ 193 := by
            have := Nat.add_le_add (Nat.add_le_add (Nat.add_le_add s0 s1) s2) s2
            omega
      _ ≤ 2 ^ 164 * m := hfin
  exact Nat.le_of_mul_le_mul_left big (by norm_num)

/-- Claim C1, counterexample to the claim as stated: at `total_mem = 0`
the minimum clamps force the raft and lock caches to 256 MiB each, so the
sum of the four computed cache sizes (512 MiB) exceeds the total memory. -/
theorem block_cache_sum_counterexample :
    ¬ (default_cf_block_cache_size 0 + write_cf_block_cache_size 0 +
        raftlog_cf_block_cache_size 0 + lock_cf_block_cache_size 0 ≤ 0) := by
  decide

/-- Witness for `block_cache_sum_le` at a 64 GiB host. -/
theorem block_cache_sum_le_witness :
    2 ^ 30 ≤ 2 ^ 36 ∧ 2 ^ 36 < 2 ^ 64 ∧
      (default_cf_block_cache_size (2 ^ 36) + write_cf_block_cache_size (2 ^ 36) +
        raftlog_cf_block_cache_size (2 ^ 36) + lock_cf_block_cache_size (2 ^ 36) ≤ 2 ^ 36) :=
  ⟨by norm_num, by norm_num, block_cache_sum_le (2 ^ 36) (by norm_num) (by norm_num)⟩

/-! ### Claims C5 and C9: clamp ranges and MiB alignment -/

/-- Claim C5: for every total host memory value, the computed raft_cf
block-cache size lies in [256 MiB, 2 GiB] and the computed lock_cf
block-cache size lies in [256 MiB, 1 GiB]; when the pre-clamp value
(total_mem times the ratio, aligned down to 1 MiB) is already inside the
range, it is used unchanged. -/
theorem raft_lock_cache_clamp (m : Nat) :
    (RAFTCF_MIN_MEM ≤ raftlog_cf_block_cache_size m ∧
      raftlog_cf_block_cache_size m ≤ RAFTCF_MAX_MEM) ∧
    (LOCKCF_MIN_MEM ≤ lock_cf_block_cache_size m ∧
      lock_cf_block_cache_size m ≤ LOCKCF_MAX_MEM) ∧
    (RAFTCF_MIN_MEM ≤ raftlog_cf_cache_size_pre m →
      raftlog_cf_cache_size_pre m ≤ RAFTCF_MAX_MEM →
      raftlog_cf_block_cache_size m = raftlog_cf_cache_size_pre m) ∧
    (LOCKCF_MIN_MEM ≤ lock_cf_cache_size_pre m →
      lock_cf_cache_size_pre m ≤ LOCKCF_MAX_MEM →
      lock_cf_block_cache_size m = lock_cf_cache_size_pre m) := by
  refine ⟨?_, ?_, ?_, ?_⟩
  · exact adjust_block_cache_size_mem _ _ _
      (by rw [RAFTCF_MIN_MEM_eq, RAFTCF_MAX_MEM_eq]; norm_num)
  · exact adjust_block_cache_size_mem _ _ _
      (by rw [LOCKCF_MIN_MEM_eq, LOCKCF_MAX_MEM_eq]; norm_num)
  · intro h1 h2
    exact adjust_block_cache_size_id _ _ _ h1 h2
  · intro h1 h2
    exact adjust_block_cache_size_id _ _ _ h1 h2

set_option maxRecDepth 40000 in
/-- Witness for `raft_lock_cache_clamp` at a 16 GiB host, where the
pre-clamp value (about 327 MiB) lies inside both declared ranges. -/
theorem raft_lock_cache_clamp_witness :
    (RAFTCF_MIN_MEM ≤ raftlog_cf_cache_size_pre (2 ^ 34) ∧
      raftlog_cf_cache_size_pre (2 ^ 34) ≤ RAFTCF_MAX_MEM) ∧
    (LOCKCF_MIN_MEM ≤ lock_cf_cache_size_pre (2 ^ 34) ∧
      lock_cf_cache_size_pre (2 ^ 34) ≤ LOCKCF_MAX_MEM) ∧
    raftlog_cf_block_cache_size (2 ^ 34) = raftlog_cf_cache_size_pre (2 ^ 34) ∧
    lock_cf_block_cache_size (2 ^ 34) = lock_cf_cache_size_pre (2 ^ 34) :=
  ⟨⟨by decide, by decide⟩, ⟨by decide, by decide⟩,
    (raft_lock_cache_clamp (2 ^ 34)).2.2.1 (by decide) (by decide),
    (raft_lock_cache_clamp (2 ^ 34)).2.2.2 (by decide) (by decide)⟩

/-- Claim C9: for every u64 `n`, `align_to_mb n` is the largest multiple
of 1 MiB that is at most `n`, and clamping to the declared raft/lock
bounds (all multiples of 1 MiB) preserves 1 MiB alignment; consequently
every computed block-cache size is a multiple of 1 MiB. -/
theorem align_to_mb_spec (n : Nat) (h : n < 2 ^ 64) :
    align_to_mb n = 2 ^ 20 * (n / 2 ^ 20) ∧
    align_to_mb n ≤ n ∧
    (2 ^ 20 ∣ align_to_mb n) ∧
    (∀ k, 2 ^ 20 ∣ k → k ≤ n → k ≤ align_to_mb n) ∧
    (∀ c, 2 ^ 20 ∣ c →
      (2 ^ 20 ∣ adjust_block_cache_size c RAFTCF_MIN_MEM RAFTCF_MAX_MEM) ∧
      (2 ^ 20 ∣ adjust_block_cache_size c LOCKCF_MIN_MEM LOCKCF_MAX_MEM)) ∧
    (∀ m, (2 ^ 20 ∣ default_cf_block_cache_size m) ∧
      (2 ^ 20 ∣ write_cf_block_cache_size m) ∧
      (2 ^ 20 ∣ raftlog_cf_block_cache_size m) ∧
      (2 ^ 20 ∣ lock_cf_block_cache_size m)) := by
  have hdvd : ∀ c : Nat, 2 ^ 20 ∣ c →
      (2 ^ 20 ∣ adjust_block_cache_size c RAFTCF_MIN_MEM RAFTCF_MAX_MEM) ∧
      (2 ^ 20 ∣ adjust_block_cache_size c LOCKCF_MIN_MEM LOCKCF_MAX_MEM) := by
    intro c hc
    constructor
    · exact adjust_block_cache_size_dvd _ _ _ _ hc
        (by rw [RAFTCF_MIN_MEM_eq]; exact pow_dvd_pow 2 (by norm_num))
        (by rw [RAFTCF_MAX_MEM_eq]; exact pow_dvd_pow 2 (by norm_num))
    · exact adjust_block_cache_size_dvd _ _ _ _ hc
        (by rw [LOCKCF_MIN_MEM_eq]; exact pow_dvd_pow 2 (by norm_num))
        (by rw [LOCKCF_MAX_MEM_eq]; exact pow_dvd_pow 2 (by norm_num))
  refine ⟨align_to_mb_eq_of_lt n h, align_to_mb_le n, align_to_mb_dvd n, ?_, hdvd, ?_⟩
  · intro k hk hkn
    obtain ⟨k0, rfl⟩ := hk
    rw [align_to_mb_eq_of_lt n h]
    apply Nat.mul_le_mul_left
    rw [Nat.le_div_iff_mul_le (by norm_num)]
    calc k0 * 2 ^ 20 = 2 ^ 20 * k0 := by ring
      _ ≤ n := hkn
  · intro m
    exact ⟨align_to_mb_dvd _, align_to_mb_dvd _,
      (hdvd _ (align_to_mb_dvd _)).1, (hdvd _ (align_to_mb_dvd _)).2⟩

/-- Witness for `align_to_mb_spec` at a concrete u64 input. -/
theorem align_to_mb_spec_witness :
    123456789 < 2 ^ 64 ∧ (align_to_mb 123456789 = 2 ^ 20 * (123456789 / 2 ^ 20) ∧
      align_to_mb 123456789 ≤ 123456789 ∧
      (2 ^ 20 ∣ align_to_mb 123456789) ∧
      (∀ k, 2 ^ 20 ∣ k → k ≤ 123456789 → k ≤ align_to_mb 123456789) ∧
      (∀ c, 2 ^ 20 ∣ c →
        (2 ^ 20 ∣ adjust_block_cache_size c RAFTCF_MIN_MEM RAFTCF_MAX_MEM) ∧
        (2 ^ 20 ∣ adjust_block_cache_size c LOCKCF_MIN_MEM LOCKCF_MAX_MEM)) ∧
      (∀ m, (2 ^ 20 ∣ default_cf_block_cache_size m) ∧
        (2 ^ 20 ∣ write_cf_block_cache_size m) ∧
        (2 ^ 20 ∣ raftlog_cf_block_cache_size m) ∧
        (2 ^ 20 ∣ lock_cf_block_cache_size m))) :=
  ⟨by norm_num, align_to_mb_spec 123456789 (by norm_num)⟩

/-! ### TOML values and config lookup -/

/-- Model of `toml::Value` (toml 0.4): booleans, integers (i64), floats
(kept as exact rationals; no claim depends on float config values),
strings, datetimes are omitted (no claim mentions them), arrays and
tables.  A table is an association list with distinct keys (the toml
parser produces a map; key distinctness is irrelevant to the claims). -/
inductive Toml where
  | boolean (b : Bool)
  | integer (i : Int)
  | float (q : Rat)
  | str (s : String)
  | array (xs : List Toml)
  | table (kvs : List (String × Toml))

/-- Models `toml::Value::get(key)` with a string index: a lookup in a
table; every other variant yields `None`. -/
def toml_get : Toml → String → Option Toml
  | Toml.table kvs, k => kvs.lookup k
  | _, _ => none

/-- Helper for `splitDot`: accumulates the current segment.  Models the
semantics of Rust `str::split('.')` (structurally, so that it reduces in
the kernel). -/
def splitDotAux : List Char → String → List String
  | [], acc => [acc]
  | c :: rest, acc =>
      if c = '.' then acc :: splitDotAux rest "" else splitDotAux rest (acc.push c)

/-- Models Rust `key.split('.')`: splits on every dot, keeping empty
segments (so the empty string yields one empty segment). -/
def splitDot (key : String) : List String := splitDotAux key.toList ""

/-- The loop body of `lookup` from `tikv-server.rs`, recursing over the
already-split key path. -/
def lookup_path : Toml → List String → Option Toml
  | t, [] => some t
  | t, k :: ks =>
      match toml_get t k with
      | some v => lookup_path v ks
      | none => none

/-- Models `lookup` from `tikv-server.rs`: walk the dotted key path
through nested tables; `None` as soon as a step is missing. -/
def lookup (config : Toml) (key : String) : Option Toml :=
  lookup_path config (splitDot key)

/-- Models `get_toml_boolean` from `tikv-server.rs`.  The error carries
the exact diagnostic the source formats (note the source spells
"excepted"). -/
def get_toml_boolean (config : Toml) (name : String) (dflt : Option Bool) :
    Except Fatal Bool :=
  match lookup config name with
  | some (Toml.boolean b) => Except.ok b
  | none =>
      match dflt with
      | some d => Except.ok d
      | none => Except.error (exit_with_err ("please specify " ++ name))
  | some _ => Except.error (exit_with_err (name ++ " boolean is excepted"))

/-- Models `get_toml_string` from `tikv-server.rs`. -/
def get_toml_string (config : Toml) (name : String) (dflt : Option String) :
    Except Fatal String :=
  match lookup config name with
  | some (Toml.str s) => Except.ok s
  | none =>
      match dflt with
      | some d => Except.ok d
      | none => Except.error (exit_with_err ("please specify " ++ name))
  | some _ => Except.error (exit_with_err (name ++ " string is excepted"))

/-- Models `get_toml_int_opt` from `tikv-server.rs`.  The
`util::config::parse_readable_int` helper lives outside the two source
files, so it is kept as an explicit parameter `parse` (its raw
`Result<i64, _>`); no claim depends on its behaviour. -/
def get_toml_int_opt (parse : String → Except String Int) (config : Toml)
    (name : String) : Except Fatal (Option Int) :=
  match lookup config name with
  | some (Toml.integer i) => Except.ok (some i)
  | some (Toml.str s) =>
      match parse s with
      | Except.ok i => Except.ok (some i)
      | Except.error e =>
          Except.error (exit_with_err (name ++ " parse failed " ++ e))
  | none => Except.ok none
  | some _ => Except.error (exit_with_err (name ++ " int or readable int is excepted"))

/-- Value of `usize::MAX` on the 64-bit targets TiKV builds for. -/
def USIZE_MAX : Nat := 2 ^ 64 - 1

/-- Models `cfg_usize` from `tikv-server.rs`: on a present value,
`assert!(i >= 0 && i as u64 <= usize::MAX as u64)` (modelled as a
`Fatal.panicked` error; the `&&` short-circuits, so a negative `i` fails
on the first conjunct) and then `*target = i as usize`, returning `true`;
on an absent value the target keeps its default and the function returns
`false`.  The returned pair is (new target value, was-present flag). -/
def cfg_usize (parse : String → Except String Int) (target : Nat) (config : Toml)
    (name : String) : Except Fatal (Nat × Bool) :=
  match get_toml_int_opt parse config name with
  | Except.error e => Except.error e
  | Except.ok (some i) =>
      if 0 ≤ i ∧ i.toNat ≤ USIZE_MAX then Except.ok (i.toNat, true)
      else Except.error (Fatal.panicked (name ++ ": " ++ toString i ++ " is invalid."))
  | Except.ok none => Except.ok (target, false)

/-- Models `cfg_u64` from `tikv-server.rs`: `assert!(i >= 0)` then
`*target = i as u64`. -/
def cfg_u64 (parse : String → Except String Int) (target : Nat) (config : Toml)
    (name : String) : Except Fatal Nat :=
  match get_toml_int_opt parse config name with
  | Except.error e => Except.error e
  | Except.ok (some i) =>
      if 0 ≤ i then Except.ok i.toNat
      else Except.error (Fatal.panicked (name ++ ": " ++ toString i ++ " is invalid"))
  | Except.ok none => Except.ok target

/-- Model of `std::time::Duration`: whole seconds plus a sub-second
nanosecond count (the std invariant keeps `nanos < 10^9`). -/
structure StdDuration where
  secs : Nat
  nanos : Nat
deriving DecidableEq

/-- Models `Duration::from_millis`. -/
def duration_from_millis (ms : Nat) : StdDuration :=
  ⟨ms / 1000, ms % 1000 * 1000000⟩

/-- Models `cfg_duration` from `tikv-server.rs`: `assert!(i >= 0)` then
`*target = Duration::from_millis(i as u64)`. -/
def cfg_duration (parse : String → Except String Int) (target : StdDuration)
    (config : Toml) (name : String) : Except Fatal StdDuration :=
  match get_toml_int_opt parse config name with
  | Except.error e => Except.error e
  | Except.ok (some i) =>
      if 0 ≤ i then Except.ok (duration_from_millis i.toNat)
      else Except.error (Fatal.panicked "assertion failed: i >= 0")
  | Except.ok none => Except.ok target

/-- The `end_point_concurrency` fragment of `build_cfg` from
`tikv-server.rs`: `if !cfg_usize(&mut cfg.end_point_concurrency, config,
"server.end-point-concurrency") { cfg.end_point_concurrency =
adjust_end_points_by_cpu_num(total_cpu_num); }`.  `dflt` is the
`Config::new()` default of the field. -/
def build_cfg_end_point_concurrency (parse : String → Except String Int)
    (config : Toml) (dflt : Nat) (total_cpu_num : Nat) : Except Fatal Nat :=
  match cfg_usize parse dflt config "server.end-point-concurrency" with
  | Except.error e => Except.error e
  | Except.ok (v, true) => Except.ok v
  | Except.ok (_, false) => Except.ok (adjust_end_points_by_cpu_num total_cpu_num)

/-! ### Claim C2: end-point concurrency auto-scaling -/

/-- For 8 ≤ n ≤ 2^20 the f32 computation `(n as f32 * 0.8) as usize`
agrees with the exact `⌊0.8 n⌋ = 4 n / 5` (for larger n the f32 rounding
can differ, e.g. at `n = 2^24`). -/
theorem adjust_end_points_eq_floor (n : Nat) (h8 : 8 ≤ n) (hn : n ≤ 2 ^ 20) :
    adjust_end_points_by_cpu_num n = 4 * n / 5 := by
  unfold adjust_end_points_by_cpu_num
  rw [if_pos h8]
  have hRM : roundMantissaP 24 n = n := by
    unfold roundMantissaP
    rw [if_pos (by omega)]
  rw [hRM]
  have hA1 : 2 ^ 24 ≤ n * 13421773 := by
    calc (2 : Nat) ^ 24 ≤ 8 * 13421773 := by norm_num
      _ ≤ n * 13421773 := Nat.mul_le_mul_right _ h8
  have hA2 : n * 13421773 < 2 ^ 44 := by
    calc n * 13421773 ≤ 2 ^ 20 * 13421773 := Nat.mul_le_mul_right _ hn
      _ < 2 ^ 44 := by norm_num
  obtain ⟨p, hp1, _, hlow, hhigh, _, hge, hhalf⟩ :=
    roundMantissaP_cases 24 (n * 13421773) (by norm_num) hA1
      (lt_trans hA2 (by norm_num))
  have hp20 : p ≤ 20 := by
    by_contra hc
    have h1 : (44 : Nat) ≤ p - 1 + 24 := by omega
    have h2 : (2 : Nat) ^ 44 ≤ 2 ^ (p - 1 + 24) := Nat.pow_le_pow_right (by norm_num) h1
    rw [pow_add] at h2
    linarith
  have hP20 : (2 : Nat) ^ p ≤ 2 ^ 20 := Nat.pow_le_pow_right (by norm_num) hp20
  have hdk : 5 * (4 * n / 5) + 4 * n % 5 = 4 * n := by
    have := Nat.div_add_mod (4 * n) 5
    omega
  have hr5 : 4 * n % 5 < 5 := Nat.mod_lt _ (by norm_num)
  have h5A : 5 * (n * 13421773) = 4 * 2 ^ 24 * n + n := by ring_nf
  -- Lower bound: (4n/5) * 2^24 ≤ the round-down multiple of 2^p.
  have hkA : 4 * n / 5 * 2 ^ 24 ≤ n * 13421773 := by
    have h1 : 5 * (4 * n / 5 * 2 ^ 24) ≤ 5 * (n * 13421773) := by
      calc 5 * (4 * n / 5 * 2 ^ 24) = 5 * (4 * n / 5) * 2 ^ 24 := by ring
        _ ≤ 4 * n * 2 ^ 24 := Nat.mul_le_mul_right _ (by omega)
        _ = 4 * 2 ^ 24 * n := by ring
        _ ≤ 5 * (n * 13421773) := by omega
    omega
  have hdvd24 : (2 : Nat) ^ p ∣ 4 * n / 5 * 2 ^ 24 :=
    Dvd.dvd.mul_left (pow_dvd_pow 2 (by omega)) _
  have hkQ : 4 * n / 5 * 2 ^ 24 ≤ n * 13421773 / 2 ^ p * 2 ^ p := by
    obtain ⟨c, hc⟩ := hdvd24
    have hcle : c ≤ n * 13421773 / 2 ^ p := by
      rw [Nat.le_div_iff_mul_le (Nat.pos_pow_of_pos p (by norm_num))]
      calc c * 2 ^ p = 2 ^ p * c := by ring
        _ = 4 * n / 5 * 2 ^ 24 := hc.symm
        _ ≤ n * 13421773 := hkA
    calc 4 * n / 5 * 2 ^ 24 = 2 ^ p * c := hc
      _ = c * 2 ^ p := by ring
      _ ≤ n * 13421773 / 2 ^ p * 2 ^ p := Nat.mul_le_mul_right _ hcle
  have hlower : 4 * n / 5 * 2 ^ 24 ≤ roundMantissaP 24 (n * 13421773) :=
    le_trans hkQ hge
  -- Upper bound, now a linear problem once every compound term is an
  -- opaque variable.
  have hupper : roundMantissaP 24 (n * 13421773) < (4 * n / 5 + 1) * 2 ^ 24 := by
    have hlin : ∀ X P A k r5 m : Nat, 2 * X ≤ 2 * A + P → P ≤ 2 ^ 20 →
        5 * A = 4 * 2 ^ 24 * m + m → 5 * k + r5 = 4 * m → r5 < 5 → m ≤ 2 ^ 20 →
        X < (k + 1) * 2 ^ 24 := by
      intro X P A k r5 m hXA hP hA hk hr hm
      omega
    exact hlin (roundMantissaP 24 (n * 13421773)) (2 ^ p) (n * 13421773)
      (4 * n / 5) (4 * n % 5) n hhalf hP20 h5A hdk hr5 hn
  have hdiv := Nat.div_eq_of_lt_le hlower hupper
  exact hdiv

/-- A concrete stand-in for `util::config::parse_readable_int`, used only
to instantiate the `parse` parameter in closed statements (the code paths
exercised never call it). -/
def parseReadableIntStub : String → Except String Int := fun _ => Except.error "unused"

/-- Claim C2 (amended): when `server.end-point-concurrency` is absent
from the config (there is no CLI flag for it), the effective value is
`⌊0.8 × cpu_count⌋` when `cpu_count ≥ 8` (for cpu counts up to `2^20`,
where the f32 arithmetic is exact enough) and `4` otherwise — not
`max(4, ⌊0.8 × cpu_count⌋)` as originally claimed, which differs at
`cpu_count = 7` (see `end_point_concurrency_counterexample`). -/
theorem end_point_concurrency_auto (parse : String → Except String Int)
    (config : Toml) (dflt total_cpu_num : Nat)
    (habsent : lookup config "server.end-point-concurrency" = none)
    (hcpu : total_cpu_num ≤ 2 ^ 20) :
    build_cfg_end_point_concurrency parse config dflt total_cpu_num =
      Except.ok (if 8 ≤ total_cpu_num then 4 * total_cpu_num / 5 else 4) := by
  unfold build_cfg_end_point_concurrency cfg_usize get_toml_int_opt
  rw [habsent]
  simp only []
  by_cases h8 : 8 ≤ total_cpu_num
  · rw [if_pos h8, adjust_end_points_eq_floor total_cpu_num h8 hcpu]
  · rw [if_neg h8]
    unfold adjust_end_points_by_cpu_num
    rw [if_neg h8]

/-- Claim C2, counterexample to the claim as stated: with the option
absent and 7 CPUs the code computes 4, while
`max(4, ⌊0.8 × 7⌋) = max(4, 5) = 5`. -/
theorem end_point_concurrency_counterexample :
    build_cfg_end_point_concurrency parseReadableIntStub (Toml.integer 0) 8 7 =
      Except.ok 4 ∧
    build_cfg_end_point_concurrency parseReadableIntStub (Toml.integer 0) 8 7 ≠
      Except.ok (max 4 (4 * 7 / 5)) := by
  have h1 : build_cfg_end_point_concurrency parseReadableIntStub (Toml.integer 0) 8 7 =
      Except.ok 4 := rfl
  refine ⟨h1, ?_⟩
  rw [h1]
  intro h
  have h2 : (4 : Nat) = max 4 (4 * 7 / 5) := Except.ok.inj h
  norm_num at h2

/-- Witness for `end_point_concurrency_auto`: the empty configuration
(`toml::Value::Integer(0)`, for which every lookup is `None`) and a
32-CPU host give an effective end-point concurrency of 25. -/
theorem end_point_concurrency_auto_witness :
    lookup (Toml.integer 0) "server.end-point-concurrency" = none ∧
    (32 : Nat) ≤ 2 ^ 20 ∧
    build_cfg_end_point_concurrency parseReadableIntStub (Toml.integer 0) 8 32 =
      Except.ok 25 := by
  refine ⟨rfl, by norm_num, ?_⟩
  have h := end_point_concurrency_auto parseReadableIntStub (Toml.integer 0) 8 32
    rfl (by norm_num)
  rw [h]
  norm_num

/-! ### Claims C6 and C7: config lookup and type mismatches -/

theorem lookup_path_isSome_iff (ks : List String) (t : Toml) :
    (lookup_path t ks).isSome = true ↔
      ∀ i, i < ks.length → (lookup_path t (ks.take (i + 1))).isSome = true := by
  induction ks generalizing t with
  | nil =>
    simp [lookup_path]
  | cons k ks ih =>
    cases hg : toml_get t k with
    | none =>
      constructor
      · intro h
        rw [lookup_path, hg] at h
        simp at h
      · intro h
        have h0 := h 0 (by simp)
        rw [List.take_succ_cons, List.take_zero, lookup_path, hg] at h0
        simp [lookup_path] at h0
    | some v =>
      have hstep : lookup_path t (k :: ks) = lookup_path v ks := by
        rw [lookup_path, hg]
      constructor
      · intro h
        intro i _
        cases i with
        | zero =>
          rw [List.take_succ_cons, List.take_zero, lookup_path, hg]
          simp [lookup_path]
        | succ j =>
          rw [List.take_succ_cons, lookup_path, hg]
          rw [hstep] at h
          exact (ih v).mp h j (by
            rename_i hi
            simpa using hi)
      · intro h
        rw [hstep]
        refine (ih v).mpr ?_
        intro j hj
        have := h (j + 1) (by simpa using hj)
        rw [List.take_succ_cons, lookup_path, hg] at this
        exact this

/-- Claim C6: `lookup` walks the dotted key path, and it returns `Some`
exactly when every nonempty prefix of the split path resolves to a nested
value; as soon as any step is missing it returns `None`. -/
theorem lookup_prefix_characterisation (config : Toml) (key : String) :
    lookup config key = lookup_path config (splitDot key) ∧
    ((lookup config key).isSome = true ↔
      ∀ i, i < (splitDot key).length →
        (lookup_path config ((splitDot key).take (i + 1))).isSome = true) :=
  ⟨rfl, lookup_path_isSome_iff (splitDot key) config⟩

/-- Claim C7 (amended): a config value of the wrong declared type is
fatal with exit code 1, but the diagnostic reads "X boolean is excepted"
resp. "X string is excepted" — the source misspells "expected" (see
`toml_type_mismatch_counterexample`). -/
theorem toml_type_mismatch_fatal (config : Toml) (name : String)
    (db : Option Bool) (ds : Option String) (v : Toml)
    (h : lookup config name = some v) :
    ((∀ b, v ≠ Toml.boolean b) →
      get_toml_boolean config name db =
        Except.error (Fatal.exit 1 (name ++ " boolean is excepted"))) ∧
    ((∀ s, v ≠ Toml.str s) →
      get_toml_string config name ds =
        Except.error (Fatal.exit 1 (name ++ " string is excepted"))) := by
  constructor
  · intro hv
    unfold get_toml_boolean
    rw [h]
    cases v with
    | boolean b => exact absurd rfl (hv b)
    | integer i => rfl
    | float q => rfl
    | str s => rfl
    | array xs => rfl
    | table kvs => rfl
  · intro hv
    unfold get_toml_string
    rw [h]
    cases v with
    | str s => exact absurd rfl (hv s)
    | boolean b => rfl
    | integer i => rfl
    | float q => rfl
    | array xs => rfl
    | table kvs => rfl

/-- Claim C7, counterexample to the message text the claim asserts: an
integer supplied for a boolean option produces the (misspelt) message
"a boolean is excepted", not "a boolean is expected". -/
theorem toml_type_mismatch_counterexample :
    get_toml_boolean (Toml.table [("a", Toml.integer 3)]) "a" none =
      Except.error (Fatal.exit 1 "a boolean is excepted") ∧
    "a boolean is excepted" ≠ "a boolean is expected" :=
  ⟨rfl, by decide⟩

/-- Witness for `toml_type_mismatch_fatal` on a concrete config. -/
theorem toml_type_mismatch_fatal_witness :
    lookup (Toml.table [("a", Toml.integer 3)]) "a" = some (Toml.integer 3) ∧
    get_toml_boolean (Toml.table [("a", Toml.integer 3)]) "a" none =
      Except.error (Fatal.exit 1 ("a" ++ " boolean is excepted")) ∧
    get_toml_string (Toml.table [("a", Toml.integer 3)]) "a" none =
      Except.error (Fatal.exit 1 ("a" ++ " string is excepted")) := by
  have hl : lookup (Toml.table [("a", Toml.integer 3)]) "a" = some (Toml.integer 3) := rfl
  have h := toml_type_mismatch_fatal (Toml.table [("a", Toml.integer 3)]) "a"
    none none (Toml.integer 3) hl
  exact ⟨hl, h.1 (fun b hb => Toml.noConfusion hb), h.2 (fun s hs => Toml.noConfusion hs)⟩

/-! ### Claim C10: integer config options and the non-negativity asserts -/

/-- Claim C10: for an integer config value `i` (an i64), a negative value
makes `cfg_usize`, `cfg_u64` and `cfg_duration` panic on their assert —
the target is never assigned a wrapped-around value; a non-negative value
(every non-negative i64 fits the 64-bit targets) makes the assert pass
and assigns exactly `i`. -/
theorem cfg_int_assert_spec (parse : String → Except String Int) (config : Toml)
    (name : String) (t0 : Nat) (tu : Nat) (td : StdDuration) (i : Int)
    (h : lookup config name = some (Toml.integer i)) (hrange : i < 2 ^ 63) :
    (i < 0 →
      cfg_usize parse t0 config name =
        Except.error (Fatal.panicked (name ++ ": " ++ toString i ++ " is invalid.")) ∧
      cfg_u64 parse tu config name =
        Except.error (Fatal.panicked (name ++ ": " ++ toString i ++ " is invalid")) ∧
      cfg_duration parse td config name =
        Except.error (Fatal.panicked "assertion failed: i >= 0")) ∧
    (0 ≤ i →
      cfg_usize parse t0 config name = Except.ok (i.toNat, true) ∧
      cfg_u64 parse tu config name = Except.ok i.toNat ∧
      cfg_duration parse td config name =
        Except.ok (duration_from_millis i.toNat) ∧
      (i.toNat : Int) = i) := by
  have hopt : get_toml_int_opt parse config name = Except.ok (some i) := by
    unfold get_toml_int_opt
    rw [h]
  constructor
  · intro hneg
    refine ⟨?_, ?_, ?_⟩
    · unfold cfg_usize
      rw [hopt]
      simp only []
      rw [if_neg (by omega)]
    · unfold cfg_u64
      rw [hopt]
      simp only []
      rw [if_neg (by omega)]
    · unfold cfg_duration
      rw [hopt]
      simp only []
      rw [if_neg (by omega)]
  · intro hpos
    have hfits : i.toNat ≤ USIZE_MAX := by
      unfold USIZE_MAX
      omega
    refine ⟨?_, ?_, ?_, Int.toNat_of_nonneg hpos⟩
    · unfold cfg_usize
      rw [hopt]
      simp only []
      rw [if_pos ⟨hpos, hfits⟩]
    · unfold cfg_u64
      rw [hopt]
      simp only []
      rw [if_pos hpos]
    · unfold cfg_duration
      rw [hopt]
      simp only []
      rw [if_pos hpos]

/-- Witness for `cfg_int_assert_spec`: a config supplying `-1` panics in
all three setters, and one supplying `5` assigns exactly 5. -/
theorem cfg_int_assert_spec_witness :
    (cfg_usize parseReadableIntStub 0 (Toml.table [("a", Toml.integer (-1))]) "a" =
      Except.error (Fatal.panicked ("a" ++ ": " ++ toString (-1 : Int) ++ " is invalid.")) ∧
     cfg_u64 parseReadableIntStub 0 (Toml.table [("a", Toml.integer (-1))]) "a" =
      Except.error (Fatal.panicked ("a" ++ ": " ++ toString (-1 : Int) ++ " is invalid")) ∧
     cfg_duration parseReadableIntStub ⟨0, 0⟩ (Toml.table [("a", Toml.integer (-1))]) "a" =
      Except.error (Fatal.panicked "assertion failed: i >= 0")) ∧
    (cfg_usize parseReadableIntStub 0 (Toml.table [("a", Toml.integer 5)]) "a" =
      Except.ok ((5 : Int).toNat, true) ∧
     cfg_u64 parseReadableIntStub 0 (Toml.table [("a", Toml.integer 5)]) "a" =
      Except.ok (5 : Int).toNat ∧
     cfg_duration parseReadableIntStub ⟨0, 0⟩ (Toml.table [("a", Toml.integer 5)]) "a" =
      Except.ok (duration_from_millis (5 : Int).toNat) ∧
     ((5 : Int).toNat : Int) = 5) :=
  ⟨(cfg_int_assert_spec parseReadableIntStub (Toml.table [("a", Toml.integer (-1))]) "a"
      0 0 ⟨0, 0⟩ (-1) rfl (by norm_num)).1 (by norm_num),
   (cfg_int_assert_spec parseReadableIntStub (Toml.table [("a", Toml.integer 5)]) "a"
      0 0 ⟨0, 0⟩ 5 rfl (by norm_num)).2 (by norm_num)⟩

/-! ### `util/time.rs`: duration conversions, Instant arithmetic, and the
wall-clock jump monitor -/

/-- Models `duration_to_ms` from `time.rs`:
`d.as_secs() * 1_000 + (d.subsec_nanos() as u64) / 1_000_000`, with u64
wrap-around made explicit (release-mode semantics). -/
def duration_to_ms (d : StdDuration) : Nat :=
  (d.secs * 1000 % 2 ^ 64 + d.nanos / 1000000) % 2 ^ 64

/-- Models `duration_to_nanos` from `time.rs`:
`d.as_secs() * 1_000_000_000 + d.subsec_nanos() as u64`, with u64
wrap-around made explicit. -/
def duration_to_nanos (d : StdDuration) : Nat :=
  (d.secs * 1000000000 % 2 ^ 64 + d.nanos) % 2 ^ 64

/-- Claim C8: for every std `Duration` (whose invariant keeps the
sub-second nanosecond count below 10^9), `duration_to_ms` is the total
duration divided by one millisecond rounded down, and `duration_to_nanos`
is the total nanosecond count — both in 64-bit unsigned arithmetic. -/
theorem duration_conversions (d : StdDuration) (h : d.nanos < 1000000000) :
    duration_to_ms d = (d.secs * 1000000000 + d.nanos) / 1000000 % 2 ^ 64 ∧
    duration_to_nanos d = (d.secs * 1000000000 + d.nanos) % 2 ^ 64 := by
  unfold duration_to_ms duration_to_nanos
  constructor <;> omega

/-- Witness for `duration_conversions`. -/
theorem duration_conversions_witness :
    (345678901 : Nat) < 1000000000 ∧
    (duration_to_ms ⟨2, 345678901⟩ =
        ((2 : Nat) * 1000000000 + 345678901) / 1000000 % 2 ^ 64 ∧
      duration_to_nanos ⟨2, 345678901⟩ =
        ((2 : Nat) * 1000000000 + 345678901) % 2 ^ 64) :=
  ⟨by norm_num, duration_conversions ⟨2, 345678901⟩ (by norm_num)⟩

/-- Model of `time::Timespec` (time 0.1): seconds (i64) and nanoseconds
(i32); a valid value keeps `0 ≤ nsec < 10^9`. -/
structure Timespec where
  sec : Int
  nsec : Int
deriving DecidableEq

/-- Lexicographic comparison of timespecs, as derived by
`#[derive(PartialOrd, Ord)]` on `(sec, nsec)`. -/
def tsLe (a b : Timespec) : Bool :=
  if a.sec < b.sec then true
  else if a.sec = b.sec then decide (a.nsec ≤ b.nsec)
  else false

/-- Models `std::time::Duration::new(secs, nanos)`: nanoseconds at and above one
second carry into the seconds. -/
def duration_new (secs nanos : Nat) : StdDuration :=
  ⟨secs + nanos / 1000000000, nanos % 1000000000⟩

/-- Models `elapsed_duration` from `time.rs`.  For `later ≥ earlier`
(lexicographically) it computes
`Duration::new((later.sec - earlier.sec) as u64, (later.nsec - earlier.nsec) as u32)`;
note that the i32 nanosecond difference may be negative, and the `as u32`
cast then wraps it modulo `2^32`.  For `later < earlier` the source
panics, modelled as `none`. -/
def elapsed_duration (later earlier : Timespec) : Option StdDuration :=
  if tsLe earlier later then
    some (duration_new (later.sec - earlier.sec).toNat
      ((later.nsec - earlier.nsec).emod 4294967296).toNat)
  else none

/-- Model of `tikv::util::time::Instant`: a timespec tagged with the
clock it came from. -/
inductive Instant where
  | Monotonic (t : Timespec)
  | MonotonicCoarse (t : Timespec)
deriving DecidableEq

/-- Models `Instant::get_timespec`. -/
def Instant.get_timespec : Instant → Timespec
  | Instant.Monotonic t => t
  | Instant.MonotonicCoarse t => t

/-- The `impl Add<Duration> for Timespec` of the time 0.1 crate
(dependency of `time.rs`), specialised to the nonnegative durations
produced by `Duration::from_std`: componentwise addition followed by one
nanosecond-carry normalisation step. -/
def timespec_add_duration (t : Timespec) (d : StdDuration) : Timespec :=
  if 1000000000 ≤ t.nsec + (d.nanos : Int) then
    ⟨t.sec + (d.secs : Int) + 1, t.nsec + (d.nanos : Int) - 1000000000⟩
  else
    ⟨t.sec + (d.secs : Int), t.nsec + (d.nanos : Int)⟩

/-- The `impl Sub<Duration> for Timespec` of the time 0.1 crate,
specialised to nonnegative durations: componentwise subtraction followed
by one borrow normalisation step. -/
def timespec_sub_duration (t : Timespec) (d : StdDuration) : Timespec :=
  if t.nsec - (d.nanos : Int) < 0 then
    ⟨t.sec - (d.secs : Int) - 1, t.nsec - (d.nanos : Int) + 1000000000⟩
  else
    ⟨t.sec - (d.secs : Int), t.nsec - (d.nanos : Int)⟩

/-- Models `impl Add<Duration> for Instant` from `time.rs`: adds
`TimeDuration::from_std(other)` to the underlying timespec, preserving
the tag (`from_std` is exact for durations in range; its out-of-range
panic is outside every claim's inputs). -/
def Instant.addDuration : Instant → StdDuration → Instant
  | Instant.Monotonic t, d => Instant.Monotonic (timespec_add_duration t d)
  | Instant.MonotonicCoarse t, d => Instant.MonotonicCoarse (timespec_add_duration t d)

/-- Models `impl Sub<Duration> for Instant` from `time.rs`. -/
def Instant.subDuration : Instant → StdDuration → Instant
  | Instant.Monotonic t, d => Instant.Monotonic (timespec_sub_duration t d)
  | Instant.MonotonicCoarse t, d => Instant.MonotonicCoarse (timespec_sub_duration t d)

/-- Models `Instant::duration_since` from `time.rs`: `elapsed_duration` on the
underlying timespecs (tags are ignored). -/
def Instant.duration_since (self earlier : Instant) : Option StdDuration :=
  elapsed_duration self.get_timespec earlier.get_timespec

/-- Models `impl Sub<Instant> for Instant` from `time.rs`: goes through
`duration_since`. -/
def Instant.subInstant (a b : Instant) : Option StdDuration :=
  a.duration_since b

/-- Claim C3, evaluation at the failing input: for
`t = Monotonic(0s, 999999999ns)` and `d = 1ns`, the code computes
`(t + d) − t = 4s 294967297ns` instead of `d = 1ns`: `elapsed_duration`
casts the negative i32 nanosecond difference to u32, which wraps.  (The
claim `(t + d) − t = d` is the spec's and clearly the intent; the missing
borrow handling in `elapsed_duration` is a code bug.) -/
theorem instant_add_sub_eval :
    Instant.subInstant
        (Instant.addDuration (Instant.Monotonic ⟨0, 999999999⟩) ⟨0, 1⟩)
        (Instant.Monotonic ⟨0, 999999999⟩) =
      some ⟨4, 294967297⟩ ∧
    (⟨4, 294967297⟩ : StdDuration) ≠ ⟨0, 1⟩ ∧
    Instant.addDuration
        (Instant.subDuration (Instant.Monotonic ⟨0, 999999999⟩) ⟨0, 1⟩) ⟨0, 1⟩ =
      Instant.Monotonic ⟨0, 999999999⟩ := by
  refine ⟨?_, by decide, ?_⟩ <;> rfl

/-- Model of `SystemTime` as nanoseconds since the epoch;
`SystemTime::duration_since(earlier)` errs exactly when `earlier` is
strictly later than `self`. -/
def system_time_duration_since (t earlier : Nat) : Except Unit Nat :=
  if earlier ≤ t then Except.ok (t - earlier) else Except.error ()

/-- One iteration of the `Monitor::new` worker loop from `time.rs`: takes
the sample `before = now()` before the sleep and `after = now()` after
it, and returns whether `on_jumped` is invoked, i.e. whether
`after.duration_since(before)` returned `Err`. -/
def monitor_iteration_on_jumped (before after : Nat) : Bool :=
  match system_time_duration_since after before with
  | Except.error _ => true
  | Except.ok _ => false

/-- Claim C4: in every iteration of the jump monitor loop, the
`on_jumped` callback runs iff the post-sleep sample is strictly earlier
than the pre-sleep sample; in particular it is not called when no jump
occurred. -/
theorem monitor_on_jumped_iff (before after : Nat) :
    monitor_iteration_on_jumped before after = true ↔ after < before := by
  unfold monitor_iteration_on_jumped system_time_duration_since
  by_cases h : before ≤ after
  · rw [if_pos h]
    simp
    omega
  · rw [if_neg h]
    simp
    omega
